import Mathlib

/-!
Verification of the paytk frame pipeline.

The JavaScript sources are embedded shallowly: JS strings become `List Char`
(`Str`), JS objects become structures, the sequential `for` loops over frame
arrays become structural recursions that additionally expose, as part of their
result, the list of frame indices actually sent to the external API (the
observable call trace of the loop), and the external environment (the styling
API, image decoding, `MediaRecorder.isTypeSupported`) is a function parameter.
-/

namespace Paytk

/-- A JavaScript string, modelled as its list of characters. -/
abbrev Str := List Char

/-- JS line terminators, which `.` in a regular expression does not match. -/
def isLineTerm (c : Char) : Bool :=
  c = '\n' || c = '\r' || c.val = 0x2028 || c.val = 0x2029

/-- `dataUrl.split(',')` from `parseDataUrl` (functional-core, lines 228-232):
splitting on every comma; the result is never empty. -/
def splitComma : Str → List Str
  | [] => [[]]
  | c :: rest =>
    if c = ',' then [] :: splitComma rest
    else
      match splitComma rest with
      | [] => [[c]]
      | h :: t => (c :: h) :: t

/-- The scan of the lazy regex body `(.*?);` : consume characters up to the
first `;`, failing if a line terminator or the end of the string comes
first. -/
def takeToSemi : Str → Option Str
  | [] => none
  | c :: rest =>
    if c = ';' then some []
    else if isLineTerm c then none
    else (takeToSemi rest).map (fun l => c :: l)

/-- `header.match(/:(.*?);/)?.[1]` : the capture of the first match of the
lazy regex `:(.*?);` — the earliest `:` that is followed by a `;` with no
line terminator in between, capturing the characters between them. -/
def findCapture : Str → Option Str
  | [] => none
  | c :: rest =>
    if c = ':' then
      match takeToSemi rest with
      | some cap => some cap
      | none => findCapture rest
    else findCapture rest

/-- Result of `parseDataUrl`: `data` is `none` when the input had no comma,
modelling the JS `undefined` second element of the destructuring. -/
structure ParsedDataUrl where
  mimeType : Str
  data : Option Str
deriving DecidableEq, Repr

/-- `parseDataUrl` (functional-core, lines 228-232):
`const [header, data] = dataUrl.split(','); const mimeType =
header.match(/:(.*?);/)?.[1] || 'image/jpeg'; return { mimeType, data }`.
The `|| 'image/jpeg'` also replaces an empty (falsy) capture. -/
def parseDataUrl (dataUrl : Str) : ParsedDataUrl :=
  let parts := splitComma dataUrl
  let header := parts.headD []
  let mimeType :=
    match findCapture header with
    | some cap => if cap = [] then "image/jpeg".toList else cap
    | none => "image/jpeg".toList
  ⟨mimeType, parts[1]?⟩

/-- `createDataUrl` (functional-core, lines 240-241):
`` `data:${mimeType};base64,${data}` ``. -/
def createDataUrl (mimeType data : Str) : Str :=
  "data:".toList ++ mimeType ++ ";base64,".toList ++ data

/-- A `Frame` as documented in the functional core: base64 payload, MIME
type, and displayable data URL. -/
structure Frame where
  data : Str
  mimeType : Str
  src : Str
deriving DecidableEq, Repr

/-- `createFrame` (functional-core, lines 249-253). -/
def createFrame (data mimeType : Str) : Frame :=
  ⟨data, mimeType, createDataUrl mimeType data⟩

/-- Characters of the base64 alphabet (including padding). -/
def isBase64Char (c : Char) : Bool :=
  c.isAlphanum || c = '+' || c = '/' || c = '='

/-- A valid base64 payload: every character is from the base64 alphabet. -/
def isBase64 (s : Str) : Bool :=
  s.all isBase64Char

/-- The invariant claimed for frames: the display URL is exactly the
concatenation of the fixed prefix, the MIME type and the payload. -/
def FrameInv (f : Frame) : Prop :=
  f.src = createDataUrl f.mimeType f.data

-- ============================================================
-- Styling API and batch styler
-- ============================================================

/-- Outcome of one call to `ai.models.generateContent` for a given frame
index, as observed by the callers: the response carries an inline image part
(`ok` with its payload and MIME type), the response carries no image part
(`noImage`), or the call throws (`exn`), where `isAuth` records whether
`error.toString()` contains `403` or `API_KEY_INVALID`. -/
inductive ApiOutcome
  | ok (data mimeType : Str)
  | noImage
  | exn (isAuth : Bool)
deriving DecidableEq, Repr

/-- Whether the outcome is a thrown error recognised as an authentication
failure by the `403` / `API_KEY_INVALID` check in `styleFrames`. -/
def ApiOutcome.isAuthExn : ApiOutcome → Bool
  | .exn true => true
  | _ => false

/-- Whether the outcome makes the styling of this frame fail (no image part
or a non-fatal thrown error), triggering the per-frame fallback. -/
def ApiOutcome.isFailure : ApiOutcome → Bool
  | .ok _ _ => false
  | _ => true

/-- An element pushed onto `styledResults` by `styleFrames` in the
standalone app (part_002, lines 443-489): the pushed object literals carry
only `src`, so `data` and `mimeType` are the absent (`none`) fields of the
JS object. -/
structure StyledResult where
  data : Option Str
  mimeType : Option Str
  src : Str
deriving DecidableEq, Repr

/-- The loop body of `styleFrames` (part_002, lines 443-489), recursing over
the remaining frames with `i` the index of the current frame. The result is
the returned list (or the thrown error message), paired with the list of
frame indices actually sent to the API, in order. On a response with an
image part it pushes `{src: data:mime;base64,data}`; on a response without
one, or a non-auth throw, it pushes `{src: frame.src}`; on an auth-classified
throw it throws `Error("Invalid API Key")`, discarding the partial list. -/
def styleFramesAux (client : Nat → ApiOutcome) :
    List Frame → Nat → Except String (List StyledResult) × List Nat
  | [], _ => (.ok [], [])
  | f :: rest, i =>
    match client i with
    | .ok d m =>
      let r := styleFramesAux client rest (i + 1)
      (r.1.map (fun l => ⟨none, none, createDataUrl m d⟩ :: l), i :: r.2)
    | .noImage =>
      let r := styleFramesAux client rest (i + 1)
      (r.1.map (fun l => ⟨none, none, f.src⟩ :: l), i :: r.2)
    | .exn true => (.error "Invalid API Key", [i])
    | .exn false =>
      let r := styleFramesAux client rest (i + 1)
      (r.1.map (fun l => ⟨none, none, f.src⟩ :: l), i :: r.2)

/-- `styleFrames(framesToStyle, ...)` (part_002, lines 443-489): the
sequential loop starting at index 0. -/
def styleFrames (client : Nat → ApiOutcome) (framesToStyle : List Frame) :
    Except String (List StyledResult) × List Nat :=
  styleFramesAux client framesToStyle 0

/-- `generateStylizedFrame` (effects.js, lines 93-113): returns
`createFrame(data, mimeType)` from the inline image part, or throws —
`Error('No image returned from API')` when the response has no image part
(error payload `false` = not auth), or the transport error itself. -/
def generateStylizedFrame (out : ApiOutcome) : Except Bool Frame :=
  match out with
  | .ok d m => .ok (createFrame d m)
  | .noImage => .error false
  | .exn b => .error b

/-- One entry of the `results` array built by `styleFramesBatch`
(effects.js, lines 123-142). -/
structure BatchEntry where
  success : Bool
  frame : Frame
deriving DecidableEq, Repr

/-- The loop of `styleFramesBatch` (effects.js, lines 123-142): every
iteration pushes `{success: true, frame}`, with the original frame as
fallback on any caught error (including authentication errors — this
implementation has no abort path). -/
def styleFramesBatchAux (client : Nat → ApiOutcome) :
    List Frame → Nat → List BatchEntry
  | [], _ => []
  | f :: rest, i =>
    (match generateStylizedFrame (client i) with
     | .ok sf => ⟨true, sf⟩
     | .error _ => ⟨true, f⟩) :: styleFramesBatchAux client rest (i + 1)

/-- `styleFramesBatch` (effects.js, lines 123-142):
`results.filter(r => r.success).map(r => r.frame)`. -/
def styleFramesBatch (client : Nat → ApiOutcome) (frames : List Frame) :
    List Frame :=
  ((styleFramesBatchAux client frames 0).filter (fun e => e.success)).map
    (fun e => e.frame)

-- ============================================================
-- Frame extraction times
-- ============================================================

/-- `calculateFrameTimes` (functional-core, lines 288-289):
`Array.from({length: frameCount}, (_, i) => (i * duration) / frameCount)`,
with JS numbers modelled as rationals. -/
def calculateFrameTimes (duration : ℚ) (frameCount : Nat) : List ℚ :=
  (List.range frameCount).map (fun (i : Nat) => ((i : ℚ) * duration) / (frameCount : ℚ))

/-- The sample times of `handleExtractFrames` (part_002, lines 333-383):
`interval = duration / frameCountVal; time = i * interval`. -/
def handleExtractTimes (duration : ℚ) (frameCount : Nat) : List ℚ :=
  (List.range frameCount).map (fun (i : Nat) => (i : ℚ) * (duration / (frameCount : ℚ)))

/-- `extractFramesFromVideo` (effects.js, lines 220-245): seek to each time
in order and capture the decoded image there; `frameAt` models the
environment's video-decode-at-timestamp, so the loop is a map over the
times. -/
def extractFramesFromVideo (frameAt : ℚ → Frame) (times : List ℚ) :
    List Frame :=
  times.map frameAt

/-- The frame object pushed by `handleExtractFrames` (part_002, lines
353-370) for a canvas snapshot: the environment's
`canvas.toDataURL('image/jpeg', 0.8)` yields `data:image/jpeg;base64,` ++ a
base64 payload `p`, and the code stores
`{data: dataUrl.split(',')[1], mimeType: 'image/jpeg', src: dataUrl}`. -/
def extractedFrame (p : Str) : Frame :=
  let dataUrl := "data:image/jpeg;base64,".toList ++ p
  ⟨((splitComma dataUrl)[1]?).getD [], "image/jpeg".toList, dataUrl⟩

-- ============================================================
-- Codec selection and video assembly
-- ============================================================

/-- A codec descriptor: container MIME type and file extension. -/
structure Codec where
  mimeType : String
  extension : String
deriving DecidableEq, Repr

/-- The statically ranked codec list, identical in `selectBestCodec`
(functional-core, lines 296-305) and `createVideoFromFrames` (part_002,
lines 637-655). -/
def codecOptions : List Codec :=
  [⟨"video/webm; codecs=vp9", "webm"⟩,
   ⟨"video/webm; codecs=vp8", "webm"⟩,
   ⟨"video/mp4", "mp4"⟩,
   ⟨"video/webm", "webm"⟩]

/-- `selectBestCodec` (functional-core, lines 296-305):
`codecOptions.find(option => supportedTypes.includes(option.mimeType)) ||
null`. -/
def selectBestCodec (supportedTypes : List String) : Option Codec :=
  codecOptions.find? (fun option => supportedTypes.contains option.mimeType)

/-- The candidate MIME list written literally in `createVideoFromFrames`
(effects.js, lines 296-301) before filtering by
`MediaRecorder.isTypeSupported`. -/
def effectsCandidateTypes : List String :=
  ["video/webm; codecs=vp9", "video/webm; codecs=vp8", "video/mp4",
   "video/webm"]

/-- The codec-selection phase of effects.js `createVideoFromFrames` (lines
296-303): filter the candidates by the environment's support predicate
`sup`, then `selectBestCodec`. -/
def effectsSelectCodec (sup : String → Bool) : Option Codec :=
  selectBestCodec (effectsCandidateTypes.filter sup)

/-- The codec-selection loop of part_002 `createVideoFromFrames` (lines
644-655): take the first ranked option that `isTypeSupported` accepts and
for which `new MediaRecorder` does not throw (`canCon`); a construction
failure falls through to the next option. -/
def part002SelectCodec (sup canCon : String → Bool) : Option Codec :=
  codecOptions.find? (fun option =>
    sup option.mimeType && canCon option.mimeType)

/-- What is drawn onto the canvas for one frame during assembly: the frame's
image when it decodes, a solid black fill when it does not. -/
inductive Drawn
  | image (src : Str)
  | black
deriving DecidableEq, Repr

/-- `createVideoFromFrames(frames, fps)` (part_002, lines 620-696), with the
environment's image decoding modelled by `decodes` on the frame's `src`.
Empty input rejects; a first frame that fails to load rejects (it is needed
for the canvas dimensions); no initialisable recorder rejects; otherwise
each frame is drawn in order — its image if it decodes, a black frame
otherwise — and the recorded container plus the chosen extension resolve. -/
def createVideoFromFrames (decodes : Str → Bool) (sup canCon : String → Bool)
    (frames : List StyledResult) : Except String (List Drawn × String) :=
  match frames with
  | [] => .error "No frames to create video from."
  | first :: _ =>
    if decodes first.src then
      match part002SelectCodec sup canCon with
      | some codec =>
        .ok (frames.map (fun f =>
          if decodes f.src then .image f.src else .black), codec.extension)
      | none =>
        .error "MediaRecorder could not be initialized. Cannot create video."
    else .error "Could not load first frame to get video dimensions."

-- ============================================================
-- Progressive two-pass orchestration
-- ============================================================

/-- Observable outcome of `processVideoWithProgressivePreview`:
`previewShown` is the low-res styled sequence handed to the output
animation (pass 1 succeeded), `previewFailed` records the
`"Could not generate a preview"` error path, `pass2Started` records whether
the high-quality pass was entered, and `finalVideo` the assembled result
when encoding succeeded. -/
structure OrchResult where
  previewShown : Option (List StyledResult)
  previewFailed : Bool
  pass2Started : Bool
  finalVideo : Option (List Drawn × String)
deriving DecidableEq, Repr

/-- `processVideoWithProgressivePreview` (part_002, lines 555-610).
Pass 1: build the low-res frames (`createLowResFrames`, modelled by mapping
the environment's rescale `scaleF`), style them; an `Invalid API Key` throw
returns silently; an empty styled list throws
`"Preview generation failed. No frames were returned."` which the catch
turns into the preview-failure path; otherwise the preview is shown and
pass 2 runs `styleFrames` on the original frames and assembles the video
with `createVideoFromFrames(styledHighResFrames, 10)`, where both an auth
throw and an assembly rejection leave the preview in place. -/
def processVideoWithProgressivePreview (pre fin : Nat → ApiOutcome)
    (scaleF : Frame → Frame) (decodes : Str → Bool)
    (sup canCon : String → Bool) (capturedFrames : List Frame) : OrchResult :=
  let lowResFrames := capturedFrames.map scaleF
  match (styleFrames pre lowResFrames).1 with
  | .error _ => ⟨none, false, false, none⟩
  | .ok styledLowResFrames =>
    if styledLowResFrames.length = 0 then ⟨none, true, false, none⟩
    else
      match (styleFrames fin capturedFrames).1 with
      | .error _ => ⟨some styledLowResFrames, false, true, none⟩
      | .ok styledHighResFrames =>
        match createVideoFromFrames decodes sup canCon styledHighResFrames with
        | .error _ => ⟨some styledLowResFrames, false, true, none⟩
        | .ok v => ⟨some styledLowResFrames, false, true, some v⟩

-- ============================================================
-- API key validation and client initialisation
-- ============================================================

/-- A JS value as seen by `isValidApiKey`: a string or anything else. -/
inductive JSValue
  | str (s : Str)
  | other
deriving DecidableEq, Repr

/-- `isValidApiKey` (functional-core, lines 184-185):
`typeof key === 'string' && key.length > 10 && key.startsWith('AIza')`. -/
def isValidApiKey : JSValue → Bool
  | .str s => decide (10 < s.length) && "AIza".toList.isPrefixOf s
  | .other => false

/-- The initialised styling client (its retained configuration). -/
structure AIClient where
  apiKey : Str
deriving DecidableEq, Repr

/-- `initializeAI` (hybrid app in effects.js, lines 495-509): refuse with
`"Invalid API Key format"` when `isValidApiKey` rejects the key, otherwise
construct the client. -/
def initializeAI (key : Str) : Except String AIClient :=
  if isValidApiKey (.str key) then .ok ⟨key⟩
  else .error "Invalid API Key format"

-- ============================================================
-- Derived forms used to state the theorems
-- ============================================================

-- Equality on `Except` results, for evaluating runs on concrete inputs.
deriving instance DecidableEq for Except

/-- The output list of a `styleFrames` run in which no authentication error
occurs, written as a direct recursion: per frame, the styled `src` on an
image response and the original `src` otherwise. -/
def stylePure (client : Nat → ApiOutcome) : List Frame → Nat → List StyledResult
  | [], _ => []
  | f :: rest, i =>
    (match client i with
     | .ok d m => (⟨none, none, createDataUrl m d⟩ : StyledResult)
     | _ => ⟨none, none, f.src⟩) :: stylePure client rest (i + 1)

/-- The output list of a `styleFramesBatch` run, written as a direct
recursion: per frame, the styled frame on an image response and the original
frame otherwise. -/
def batchPure (client : Nat → ApiOutcome) : List Frame → Nat → List Frame
  | [], _ => []
  | f :: rest, i =>
    (match client i with
     | .ok d m => createFrame d m
     | _ => f) :: batchPure client rest (i + 1)

/-- The three-field consistency invariant transported to the objects pushed
by the standalone app's `styleFrames`: all three fields present and the
`src` their exact concatenation. -/
def StyledInv (s : StyledResult) : Prop :=
  ∃ d m, s.data = some d ∧ s.mimeType = some m ∧ s.src = createDataUrl m d

-- ============================================================
-- Supporting lemmas about the string scanners
-- ============================================================

theorem splitComma_ne_nil (s : Str) : splitComma s ≠ [] := by
  induction s with
  | nil => simp [splitComma]
  | cons c rest ih =>
    simp only [splitComma]
    split
    · simp
    · split <;> simp

theorem splitComma_no_comma (s : Str) (h : ',' ∉ s) : splitComma s = [s] := by
  induction s with
  | nil => rfl
  | cons c rest ih =>
    simp only [List.mem_cons, not_or] at h
    have hc : ¬ c = ',' := fun he => h.1 he.symm
    simp only [splitComma, if_neg hc, ih h.2]

theorem splitComma_append_comma (l r : Str) (h : ',' ∉ l) :
    splitComma (l ++ ',' :: r) = l :: splitComma r := by
  induction l with
  | nil => simp [splitComma]
  | cons c rest ih =>
    simp only [List.mem_cons, not_or] at h
    have hc : ¬ c = ',' := fun he => h.1 he.symm
    have hrest := ih h.2
    simp only [List.cons_append, splitComma, if_neg hc, List.append_eq, hrest]

theorem takeToSemi_append (m r : Str)
    (h : ∀ c ∈ m, c ≠ ';' ∧ isLineTerm c = false) :
    takeToSemi (m ++ ';' :: r) = some m := by
  induction m with
  | nil => simp [takeToSemi]
  | cons c rest ih =>
    have hc := h c (by simp)
    have hrest := ih (fun x hx => h x (by simp [hx]))
    simp only [List.cons_append, takeToSemi, if_neg hc.1, hc.2,
      Bool.false_eq_true, if_false, List.append_eq, hrest, Option.map_some']

theorem findCapture_no_colon (l r : Str) (h : ∀ c ∈ l, c ≠ ':') :
    findCapture (l ++ r) = findCapture r := by
  induction l with
  | nil => rfl
  | cons c rest ih =>
    have hc := h c (by simp)
    have hrest := ih (fun x hx => h x (by simp [hx]))
    simp only [List.cons_append, findCapture, if_neg hc, List.append_eq, hrest]

theorem findCapture_data_header (m : Str)
    (h : ∀ c ∈ m, c ≠ ';' ∧ isLineTerm c = false) :
    findCapture ("data:".toList ++ m ++ ";base64".toList) = some m := by
  have h1 : "data:".toList ++ m ++ ";base64".toList
      = "data".toList ++ (':' :: (m ++ ';' :: "base64".toList)) := by
    simp [String.toList]
  rw [h1, findCapture_no_colon "data".toList _ (by decide)]
  simp [findCapture, takeToSemi_append m _ h]

/-- Round-trip core: for a comma-free payload and a non-degenerate MIME
string, `parseDataUrl` recovers the parts of `createDataUrl`. -/
theorem parseDataUrl_createDataUrl (m d : Str) (hm0 : m ≠ [])
    (hmc : ',' ∉ m) (hms : ';' ∉ m) (hml : ∀ c ∈ m, isLineTerm c = false)
    (hd : ',' ∉ d) :
    parseDataUrl (createDataUrl m d) = ⟨m, some d⟩ := by
  have hsplit : splitComma (createDataUrl m d)
      = ("data:".toList ++ m ++ ";base64".toList) :: [d] := by
    have h1 : createDataUrl m d
        = ("data:".toList ++ m ++ ";base64".toList) ++ ',' :: d := by
      simp [createDataUrl, String.toList]
    rw [h1, splitComma_append_comma _ _ (by
      intro hmem
      rcases List.mem_append.1 hmem with hmem | hmem
      · rcases List.mem_append.1 hmem with hmem | hmem
        · revert hmem; decide
        · exact hmc hmem
      · revert hmem; decide), splitComma_no_comma d hd]
  have hcap : findCapture ("data:".toList ++ m ++ ";base64".toList) = some m :=
    findCapture_data_header m (fun c hc => ⟨fun he => hms (he ▸ hc), hml c hc⟩)
  simp only [parseDataUrl, hsplit, List.headD_cons, hcap, if_neg hm0]
  rfl


-- ============================================================
-- Supporting lemmas about the batch styler
-- ============================================================

theorem isAuthExn_iff (o : ApiOutcome) : o.isAuthExn = true ↔ o = .exn true := by
  cases o with
  | ok d m => simp [ApiOutcome.isAuthExn]
  | noImage => simp [ApiOutcome.isAuthExn]
  | exn b => cases b <;> simp [ApiOutcome.isAuthExn]

theorem styleFramesAux_no_auth (client : Nat → ApiOutcome) (frames : List Frame) :
    ∀ i, (∀ j, j < frames.length → (client (i + j)).isAuthExn = false) →
    styleFramesAux client frames i
      = (.ok (stylePure client frames i), List.range' i frames.length) := by
  induction frames with
  | nil => intro i _; rfl
  | cons f rest ih =>
    intro i h
    have h0 : (client i).isAuthExn = false := by
      simpa using h 0 (by simp)
    have hrest : ∀ j, j < rest.length → (client (i + 1 + j)).isAuthExn = false := by
      intro j hj
      have := h (j + 1) (by simpa using Nat.succ_lt_succ hj)
      simpa [Nat.add_assoc, Nat.add_comm 1 j] using this
    have hr := ih (i + 1) hrest
    cases hc : client i with
    | ok d m =>
      simp [styleFramesAux, hc, hr, stylePure, List.range'_succ, Except.map]
    | noImage =>
      simp [styleFramesAux, hc, hr, stylePure, List.range'_succ, Except.map]
    | exn b =>
      cases b with
      | false =>
        simp [styleFramesAux, hc, hr, stylePure, List.range'_succ, Except.map]
      | true => rw [hc] at h0; simp [ApiOutcome.isAuthExn] at h0

theorem stylePure_length (client : Nat → ApiOutcome) (frames : List Frame) :
    ∀ i, (stylePure client frames i).length = frames.length := by
  induction frames with
  | nil => intro i; rfl
  | cons f rest ih => intro i; simp [stylePure, ih (i + 1)]

theorem stylePure_getElem (client : Nat → ApiOutcome) (frames : List Frame) :
    ∀ i j f, frames[j]? = some f →
      (stylePure client frames i)[j]?
        = some (match client (i + j) with
          | .ok d m => (⟨none, none, createDataUrl m d⟩ : StyledResult)
          | _ => ⟨none, none, f.src⟩) := by
  induction frames with
  | nil => intro i j f h; simp at h
  | cons g rest ih =>
    intro i j f h
    cases j with
    | zero =>
      simp only [List.getElem?_cons_zero, Option.some.injEq] at h
      subst h
      cases hc : client i <;> simp [stylePure, hc]
    | succ j' =>
      simp only [List.getElem?_cons_succ] at h
      have := ih (i + 1) j' f h
      cases hc : client i <;>
        simpa [stylePure, Nat.add_assoc, Nat.add_comm 1 j'] using this

theorem styleFramesBatchAux_eq (client : Nat → ApiOutcome) (frames : List Frame) :
    ∀ i, ((styleFramesBatchAux client frames i).filter
        (fun e => e.success)).map (fun e => e.frame)
      = batchPure client frames i := by
  induction frames with
  | nil => intro i; rfl
  | cons f rest ih =>
    intro i
    cases hc : client i <;>
      simp [styleFramesBatchAux, generateStylizedFrame, hc, batchPure,
        List.filter, ih (i + 1)]

theorem batchPure_length (client : Nat → ApiOutcome) (frames : List Frame) :
    ∀ i, (batchPure client frames i).length = frames.length := by
  induction frames with
  | nil => intro i; rfl
  | cons f rest ih => intro i; simp [batchPure, ih (i + 1)]

theorem batchPure_getElem (client : Nat → ApiOutcome) (frames : List Frame) :
    ∀ i j f, frames[j]? = some f →
      (batchPure client frames i)[j]?
        = some (match client (i + j) with
          | .ok d m => createFrame d m
          | _ => f) := by
  induction frames with
  | nil => intro i j f h; simp at h
  | cons g rest ih =>
    intro i j f h
    cases j with
    | zero =>
      simp only [List.getElem?_cons_zero, Option.some.injEq] at h
      subst h
      cases hc : client i <;> simp [batchPure, hc]
    | succ j' =>
      simp only [List.getElem?_cons_succ] at h
      have := ih (i + 1) j' f h
      cases hc : client i <;>
        simpa [batchPure, Nat.add_assoc, Nat.add_comm 1 j'] using this

theorem styleFramesAux_auth_abort (client : Nat → ApiOutcome) (frames : List Frame) :
    ∀ i k, k < frames.length → client (i + k) = .exn true →
      (∀ j, j < k → (client (i + j)).isAuthExn = false) →
      styleFramesAux client frames i
        = (.error "Invalid API Key", List.range' i (k + 1)) := by
  induction frames with
  | nil => intro i k hk; simp at hk
  | cons f rest ih =>
    intro i k hk hauth hpre
    cases k with
    | zero =>
      have hc : client i = .exn true := by simpa using hauth
      simp [styleFramesAux, hc, List.range'_succ]
    | succ k' =>
      have h0 : (client i).isAuthExn = false := by
        simpa using hpre 0 (Nat.succ_pos _)
      have hk' : k' < rest.length := by simpa using Nat.lt_of_succ_lt_succ hk
      have hauth' : client (i + 1 + k') = .exn true := by
        rw [Nat.add_assoc, Nat.add_comm 1 k']
        exact hauth
      have hpre' : ∀ j, j < k' → (client (i + 1 + j)).isAuthExn = false := by
        intro j hj
        have := hpre (j + 1) (Nat.succ_lt_succ hj)
        simpa [Nat.add_assoc, Nat.add_comm 1 j] using this
      have hr := ih (i + 1) k' hk' hauth' hpre'
      cases hc : client i with
      | ok d m =>
        simp [styleFramesAux, hc, hr, List.range'_succ, Except.map]
      | noImage =>
        simp [styleFramesAux, hc, hr, List.range'_succ, Except.map]
      | exn b =>
        cases b with
        | false =>
          simp [styleFramesAux, hc, hr, List.range'_succ, Except.map]
        | true => rw [hc] at h0; simp [ApiOutcome.isAuthExn] at h0

-- ============================================================
-- Claims C2 and C3: batch styler abort and length invariant
-- ============================================================

/-- Claim C2: if the styling client throws an error classified as an
authentication failure at frame index `k` (and not before), `styleFrames`
rethrows `Invalid API Key` to its caller — no output list is produced —
and the indices sent to the API are exactly `0..k`: no frame after `k` is
processed, so in particular no styled frame beyond index `k - 1` ever
existed. -/
theorem authenticationAbort (client : Nat → ApiOutcome) (frames : List Frame)
    (k : Nat) (hk : k < frames.length) (hauth : client k = .exn true)
    (hpre : ∀ j, j < k → (client j).isAuthExn = false) :
    styleFrames client frames = (.error "Invalid API Key", List.range (k + 1)) := by
  have h := styleFramesAux_auth_abort client frames 0 k hk
    (by simpa using hauth) (by simpa using hpre)
  rw [styleFrames, h, List.range_eq_range']

/-- Witness for C2: a three-frame batch whose client throws an
authentication error on frame index 1 aborts with exactly frames 0 and 1
processed. -/
theorem authenticationAbortWitness :
    styleFrames (fun i => if i = 1 then .exn true else .noImage)
      [⟨['a'], ['m'], ['x']⟩, ⟨['b'], ['m'], ['y']⟩, ⟨['c'], ['m'], ['z']⟩]
      = (.error "Invalid API Key", List.range 2) :=
  authenticationAbort (fun i => if i = 1 then .exn true else .noImage)
    [⟨['a'], ['m'], ['x']⟩, ⟨['b'], ['m'], ['y']⟩, ⟨['c'], ['m'], ['z']⟩] 1
    (by decide) (by decide)
    (fun j hj => by
      have hj0 : j = 0 := by omega
      subst hj0
      decide)

/-- Claim C3: under any client behaviour with no authentication error, both
batch stylers return exactly one output per input frame — `styleFrames`
(standalone app) an `ok` list of the same length whose entry `j` is the
styled `src` on success and the original frame's `src` on failure, and
`styleFramesBatch` (effects layer) a frame list of the same length whose
entry `j` is the styled frame on success and the original input frame
itself on failure. -/
theorem batchLengthInvariant (client : Nat → ApiOutcome) (frames : List Frame)
    (hna : ∀ j, j < frames.length → (client j).isAuthExn = false) :
    (∃ out, (styleFrames client frames).1 = .ok out
      ∧ out.length = frames.length
      ∧ ∀ j f, frames[j]? = some f →
          out[j]? = some (match client j with
            | .ok d m => (⟨none, none, createDataUrl m d⟩ : StyledResult)
            | _ => ⟨none, none, f.src⟩)) ∧
    (styleFramesBatch client frames).length = frames.length ∧
    (∀ j f, frames[j]? = some f →
      (styleFramesBatch client frames)[j]?
        = some (match client j with
          | .ok d m => createFrame d m
          | _ => f)) := by
  have hrun := styleFramesAux_no_auth client frames 0 (by simpa using hna)
  have hbatch : styleFramesBatch client frames = batchPure client frames 0 :=
    styleFramesBatchAux_eq client frames 0
  refine ⟨⟨stylePure client frames 0, ?_, ?_, ?_⟩, ?_, ?_⟩
  · rw [styleFrames, hrun]
  · exact stylePure_length client frames 0
  · intro j f h
    simpa using stylePure_getElem client frames 0 j f h
  · rw [hbatch]; exact batchPure_length client frames 0
  · intro j f h
    rw [hbatch]
    simpa using batchPure_getElem client frames 0 j f h

/-- Witness for C3: a three-frame batch in which every call fails (no image
returned) still yields three frames from the effects-layer batch styler. -/
theorem batchLengthInvariantWitness :
    (styleFramesBatch (fun _ => .noImage)
      [⟨['a'], ['m'], ['x']⟩, ⟨['b'], ['m'], ['y']⟩, ⟨['c'], ['m'], ['z']⟩]).length = 3 :=
  (batchLengthInvariant (fun _ => .noImage)
    [⟨['a'], ['m'], ['x']⟩, ⟨['b'], ['m'], ['y']⟩, ⟨['c'], ['m'], ['z']⟩]
    (fun _ _ => rfl)).2.1

-- ============================================================
-- Claim C1: the preview pass and pass 2
-- ============================================================

/-- Counterexample to claim C1: a two-frame capture in which every preview
stylization fails (the client returns no image, so every preview frame fell
back to its original, zero frames successfully styled) does not fail the
operation — the preview shown consists entirely of fallback frames, the
preview-failure path is not taken, and pass 2 is started, contradicting the
claim that `PreviewGenerationFailedError` is signalled and pass 2 never
starts. The code only fails when the preview list is empty, which the
per-frame fallback makes impossible for a nonempty capture. -/
theorem previewZeroSuccessCounterexample :
    (processVideoWithProgressivePreview (fun _ => .noImage) (fun _ => .noImage)
      id (fun _ => true) (fun t => t == "video/mp4") (fun _ => true)
      [⟨['d'], ['m'], ['a']⟩, ⟨['e'], ['m'], ['b']⟩]).previewShown
        = some [⟨none, none, ['a']⟩, ⟨none, none, ['b']⟩] ∧
    (processVideoWithProgressivePreview (fun _ => .noImage) (fun _ => .noImage)
      id (fun _ => true) (fun t => t == "video/mp4") (fun _ => true)
      [⟨['d'], ['m'], ['a']⟩, ⟨['e'], ['m'], ['b']⟩]).previewFailed = false ∧
    (processVideoWithProgressivePreview (fun _ => .noImage) (fun _ => .noImage)
      id (fun _ => true) (fun t => t == "video/mp4") (fun _ => true)
      [⟨['d'], ['m'], ['a']⟩, ⟨['e'], ['m'], ['b']⟩]).pass2Started = true := by
  refine ⟨by decide, by decide, by decide⟩

/-- Claim C1 as amended: the hard-failure check of the orchestrator compares
the preview pass's output length against zero, not its count of successful
stylizations; since the batch styler emits one frame per input (falling back
to the original on failure), a capture of more than one frame whose preview
pass hits no authentication error never takes the preview-failure path and
always starts pass 2 — even when zero preview frames were actually
styled. -/
theorem previewFailureOnlyOnEmpty (pre fin : Nat → ApiOutcome)
    (scaleF : Frame → Frame) (decodes : Str → Bool) (sup canCon : String → Bool)
    (captured : List Frame) (hlen : 1 < captured.length)
    (hna : ∀ j, j < captured.length → (pre j).isAuthExn = false) :
    (processVideoWithProgressivePreview pre fin scaleF decodes sup canCon
      captured).previewFailed = false ∧
    (processVideoWithProgressivePreview pre fin scaleF decodes sup canCon
      captured).pass2Started = true := by
  have hmaplen : (captured.map scaleF).length = captured.length :=
    List.length_map captured scaleF
  have hrun := styleFramesAux_no_auth pre (captured.map scaleF) 0 (by
    intro j hj
    rw [hmaplen] at hj
    simpa using hna j hj)
  have hlow : (styleFrames pre (captured.map scaleF)).1
      = .ok (stylePure pre (captured.map scaleF) 0) := by
    rw [styleFrames, hrun]
  have hne : ¬ (stylePure pre (captured.map scaleF) 0).length = 0 := by
    rw [stylePure_length, hmaplen]
    omega
  simp only [processVideoWithProgressivePreview, hlow, if_neg hne]
  cases hfin : (styleFrames fin captured).1 with
  | error e => simp [hfin]
  | ok styledHigh =>
    cases hvid : createVideoFromFrames decodes sup canCon styledHigh with
    | error e => simp [hfin, hvid]
    | ok v => simp [hfin, hvid]

/-- Witness for the amended C1: the concrete all-fallback two-frame run
neither fails the preview nor skips pass 2. -/
theorem previewFailureOnlyOnEmptyWitness :
    (processVideoWithProgressivePreview (fun _ => .exn false) (fun _ => .noImage)
      id (fun _ => true) (fun t => t == "video/webm") (fun _ => true)
      [⟨['p'], ['m'], ['u']⟩, ⟨['q'], ['m'], ['v']⟩]).previewFailed = false ∧
    (processVideoWithProgressivePreview (fun _ => .exn false) (fun _ => .noImage)
      id (fun _ => true) (fun t => t == "video/webm") (fun _ => true)
      [⟨['p'], ['m'], ['u']⟩, ⟨['q'], ['m'], ['v']⟩]).pass2Started = true :=
  previewFailureOnlyOnEmpty (fun _ => .exn false) (fun _ => .noImage)
    id (fun _ => true) (fun t => t == "video/webm") (fun _ => true)
    [⟨['p'], ['m'], ['u']⟩, ⟨['q'], ['m'], ['v']⟩]
    (by decide) (fun _ _ => rfl)

-- ============================================================
-- Claims C4 and C5: FrameCodec round-trip and decode failure
-- ============================================================

/-- Counterexample to claim C4: the round-trip does not hold for every MIME
string — for the MIME string `a;b` (and a valid base64 payload `QQ==`) the
lazy regex stops at the embedded semicolon and decoding returns MIME `a`,
not `a;b`. -/
theorem frameCodecRoundTripCounterexample :
    isBase64 "QQ==".toList = true ∧
    parseDataUrl (createDataUrl "a;b".toList "QQ==".toList)
      = ⟨"a".toList, some "QQ==".toList⟩ ∧
    parseDataUrl (createDataUrl "a;b".toList "QQ==".toList)
      ≠ ⟨"a;b".toList, some "QQ==".toList⟩ := by
  refine ⟨by decide, by decide, by decide⟩

/-- Claim C4 as amended: the round-trip
`parseDataUrl (createDataUrl m d) = {mimeType := m, data := d}` holds for
every valid base64 payload `d` and every MIME string `m` that is nonempty
and contains no comma, no semicolon and no line terminator (the exact
conditions under which the comma split and the lazy `:(.*?);` capture of
the decoder recover the encoder's parts unchanged). -/
theorem frameCodecRoundTrip (m d : Str) (hm0 : m ≠ []) (hmc : ',' ∉ m)
    (hms : ';' ∉ m) (hml : ∀ c ∈ m, isLineTerm c = false)
    (hd : isBase64 d = true) :
    parseDataUrl (createDataUrl m d) = ⟨m, some d⟩ := by
  apply parseDataUrl_createDataUrl m d hm0 hmc hms hml
  intro hmem
  have hall : ∀ c ∈ d, isBase64Char c = true := by
    simpa [isBase64, List.all_eq_true] using hd
  exact absurd (hall ',' hmem) (by decide)

/-- Witness for the amended C4: the round-trip at MIME `image/png` and
payload `QQ==`. -/
theorem frameCodecRoundTripWitness :
    parseDataUrl (createDataUrl "image/png".toList "QQ==".toList)
      = ⟨"image/png".toList, some "QQ==".toList⟩ :=
  frameCodecRoundTrip "image/png".toList "QQ==".toList
    (by decide) (by decide) (by decide) (by decide) (by decide)

/-- Counterexample to claim C5: on the input `hello`, which lacks the
`type;base64,payload` structure entirely, `parseDataUrl` does not fail —
it returns the defaulted MIME type `image/jpeg` with an absent payload
(there is no `MalformedInputError` path anywhere in the function). -/
theorem decodeMalformedCounterexample :
    parseDataUrl "hello".toList = ⟨"image/jpeg".toList, none⟩ := by
  decide

/-- Claim C5 as amended: `parseDataUrl` never signals an error on a
non-conforming input; an input with no comma yields an absent (`none`)
payload, and when additionally the header has no `:(...);` pattern the MIME
type silently defaults to `image/jpeg`. -/
theorem decodeNeverFails (s : Str) (h : ',' ∉ s) :
    (parseDataUrl s).data = none ∧
    (findCapture s = none → parseDataUrl s = ⟨"image/jpeg".toList, none⟩) := by
  have hsplit := splitComma_no_comma s h
  constructor
  · simp [parseDataUrl, hsplit]
  · intro hcap
    simp [parseDataUrl, hsplit, hcap]

/-- Witness for the amended C5: the structureless input `xyz` decodes to the
defaulted MIME type with no payload instead of failing. -/
theorem decodeNeverFailsWitness :
    parseDataUrl "xyz".toList = ⟨"image/jpeg".toList, none⟩ :=
  (decodeNeverFails "xyz".toList (by decide)).2 (by decide)

-- ============================================================
-- Claim C6: video sampler times
-- ============================================================

/-- Claim C6: for `frameCount >= 1` and `duration > 0`, the sampler computes
exactly `frameCount` sample times `t_i = i * duration / frameCount`, they
are strictly increasing, `handleExtractFrames` computes the very same times
(`i * (duration / frameCount)`), and the extraction loop produces exactly
one frame per time in that order. -/
theorem videoSamplerSpacing (duration : ℚ) (frameCount : Nat)
    (frameAt : ℚ → Frame) (hn : 1 ≤ frameCount) (hd : 0 < duration) :
    (calculateFrameTimes duration frameCount).length = frameCount ∧
    (∀ i, i < frameCount →
      (calculateFrameTimes duration frameCount)[i]?
        = some ((i : ℚ) * duration / frameCount)) ∧
    List.Pairwise (· < ·) (calculateFrameTimes duration frameCount) ∧
    handleExtractTimes duration frameCount
      = calculateFrameTimes duration frameCount ∧
    (extractFramesFromVideo frameAt
      (calculateFrameTimes duration frameCount)).length = frameCount ∧
    (∀ i, i < frameCount →
      (extractFramesFromVideo frameAt (calculateFrameTimes duration frameCount))[i]?
        = some (frameAt ((i : ℚ) * duration / frameCount))) := by
  have hn0 : (0 : ℚ) < frameCount := by
    exact_mod_cast Nat.lt_of_lt_of_le Nat.zero_lt_one hn
  have hmono : ∀ a b : Nat, a < b →
      (a : ℚ) * duration / frameCount < (b : ℚ) * duration / frameCount := by
    intro a b hab
    exact (div_lt_div_iff_of_pos_right hn0).2
      (mul_lt_mul_of_pos_right (by exact_mod_cast hab) hd)
  refine ⟨?_, ?_, ?_, ?_, ?_, ?_⟩
  · rw [calculateFrameTimes, List.length_map, List.length_range]
  · intro i hi
    rw [calculateFrameTimes, List.getElem?_map, List.getElem?_range hi,
      Option.map_some']
  · rw [calculateFrameTimes]
    exact List.pairwise_map.2
      ((List.pairwise_lt_range frameCount).imp (fun hab => hmono _ _ hab))
  · rw [handleExtractTimes, calculateFrameTimes]
    refine List.map_congr_left ?_
    intro a _
    rw [mul_div_assoc]
  · rw [extractFramesFromVideo, List.length_map, calculateFrameTimes,
      List.length_map, List.length_range]
  · intro i hi
    rw [extractFramesFromVideo, calculateFrameTimes, List.getElem?_map,
      List.getElem?_map, List.getElem?_range hi, Option.map_some',
      Option.map_some']

/-- Witness for C6: with `duration = 10` and `frameCount = 5` the sample
times are `[0, 2, 4, 6, 8]`, five of them and strictly increasing. -/
theorem videoSamplerSpacingWitness :
    (calculateFrameTimes 10 5).length = 5 ∧
    List.Pairwise (· < ·) (calculateFrameTimes 10 5) ∧
    calculateFrameTimes 10 5 = [0, 2, 4, 6, 8] := by
  have h := videoSamplerSpacing 10 5 (fun _ => ⟨[], [], []⟩)
    (by norm_num) (by norm_num)
  refine ⟨h.1, h.2.2.1, ?_⟩
  simp [calculateFrameTimes, List.range_succ]
  norm_num

-- ============================================================
-- Claims C7 and C8: codec selection and assembly resilience
-- ============================================================

/-- Claim C7: both assemblers select the first codec of the statically
ranked list (vp9-webm, vp8-webm, mp4, generic webm) that the environment
reports as supported — written out as the ranked cascade — in particular,
when only `video/mp4` is supported the mp4 descriptor with extension `mp4`
is chosen; and when no codec is supported, assembly rejects (the
no-codec-available error). -/
theorem codecSelectionRanked :
    (∀ sup : String → Bool,
      effectsSelectCodec sup
        = (if sup "video/webm; codecs=vp9"
            then some ⟨"video/webm; codecs=vp9", "webm"⟩
          else if sup "video/webm; codecs=vp8"
            then some ⟨"video/webm; codecs=vp8", "webm"⟩
          else if sup "video/mp4" then some ⟨"video/mp4", "mp4"⟩
          else if sup "video/webm" then some ⟨"video/webm", "webm"⟩
          else none) ∧
      part002SelectCodec sup (fun _ => true) = effectsSelectCodec sup) ∧
    effectsSelectCodec (fun t => t == "video/mp4") = some ⟨"video/mp4", "mp4"⟩ ∧
    part002SelectCodec (fun t => t == "video/mp4") (fun _ => true)
      = some ⟨"video/mp4", "mp4"⟩ ∧
    (∀ (decodes : Str → Bool) (canCon : String → Bool)
      (frames : List StyledResult), ∃ e,
      createVideoFromFrames decodes (fun _ => false) canCon frames
        = .error e) := by
  refine ⟨?_, by decide, by decide, ?_⟩
  · intro sup
    cases h1 : sup "video/webm; codecs=vp9" <;>
      cases h2 : sup "video/webm; codecs=vp8" <;>
        cases h3 : sup "video/mp4" <;>
          cases h4 : sup "video/webm" <;>
            simp [effectsSelectCodec, selectBestCodec, effectsCandidateTypes,
              codecOptions, part002SelectCodec, List.filter, List.find?,
              h1, h2, h3, h4]
  · intro decodes canCon frames
    cases frames with
    | nil => exact ⟨_, rfl⟩
    | cons first rest =>
      have hsel : part002SelectCodec (fun _ => false) canCon = none := by
        simp [part002SelectCodec, codecOptions, List.find?]
      cases hdec : decodes first.src with
      | false =>
        exact ⟨"Could not load first frame to get video dimensions.",
          by simp [createVideoFromFrames, hdec]⟩
      | true =>
        exact ⟨"MediaRecorder could not be initialized. Cannot create video.",
          by simp [createVideoFromFrames, hdec, hsel]⟩

/-- Claim C8: whenever the first frame of a nonempty sequence loads (fixing
the canvas dimensions) and a recorder is available, assembly succeeds with
exactly one drawn entry per input frame in order — a decodable frame is
drawn as its image, an undecodable one as a solid black frame — so a
single bad frame (here at index `k >= 1`) becomes black and never aborts
the assembly. -/
theorem videoAssemblerResilience (decodes : Str → Bool)
    (sup canCon : String → Bool) (frames : List StyledResult) (c : Codec)
    (k : Nat) (f0 fk : StyledResult)
    (h0 : frames[0]? = some f0) (hdec0 : decodes f0.src = true)
    (hsel : part002SelectCodec sup canCon = some c)
    (hk1 : 1 ≤ k) (hk : frames[k]? = some fk)
    (hdeck : decodes fk.src = false) :
    ∃ drawn, createVideoFromFrames decodes sup canCon frames
        = .ok (drawn, c.extension)
      ∧ drawn.length = frames.length
      ∧ drawn[k]? = some .black
      ∧ ∀ (j : Nat) (g : StyledResult), frames[j]? = some g →
          drawn[j]? = some (if decodes g.src then .image g.src else .black) := by
  cases frames with
  | nil => simp at h0
  | cons first rest =>
    simp only [List.getElem?_cons_zero, Option.some.injEq] at h0
    subst h0
    refine ⟨(first :: rest).map (fun f =>
      if decodes f.src then .image f.src else .black), ?_, ?_, ?_, ?_⟩
    · simp [createVideoFromFrames, hdec0, hsel]
    · simp
    · rw [List.getElem?_map, hk, Option.map_some', hdeck]
      simp
    · intro j g hj
      rw [List.getElem?_map, hj, Option.map_some']

/-- Witness for C8: five frames of which index 2 fails to decode still
yield five drawn entries, the third being black. -/
theorem videoAssemblerResilienceWitness :
    ∃ drawn, createVideoFromFrames (fun s => !(s == ['2']))
        (fun t => t == "video/mp4") (fun _ => true)
        [⟨none, none, ['0']⟩, ⟨none, none, ['1']⟩, ⟨none, none, ['2']⟩,
         ⟨none, none, ['3']⟩, ⟨none, none, ['4']⟩]
        = .ok (drawn, ("mp4" : String))
      ∧ drawn.length = 5
      ∧ drawn[2]? = some .black :=
  match videoAssemblerResilience (fun s => !(s == ['2']))
    (fun t => t == "video/mp4") (fun _ => true)
    [⟨none, none, ['0']⟩, ⟨none, none, ['1']⟩, ⟨none, none, ['2']⟩,
     ⟨none, none, ['3']⟩, ⟨none, none, ['4']⟩]
    ⟨"video/mp4", "mp4"⟩ 2 ⟨none, none, ['0']⟩ ⟨none, none, ['2']⟩
    (by decide) (by decide) (by decide) (by decide) (by decide) (by decide) with
  | ⟨drawn, hok, hlen, hblack, _⟩ => ⟨drawn, hok, by rw [hlen]; rfl, hblack⟩

-- ============================================================
-- Claim C9: the uri/mimeType/payload consistency invariant
-- ============================================================

theorem createFrame_inv (d m : Str) : FrameInv (createFrame d m) := rfl

theorem extractedFrame_inv (p : Str) (hp : ',' ∉ p) :
    FrameInv (extractedFrame p) := by
  have hpre : "data:image/jpeg;base64,".toList
      = "data:image/jpeg;base64".toList ++ [','] := by decide
  have hsplit : splitComma ("data:image/jpeg;base64,".toList ++ p)
      = "data:image/jpeg;base64".toList :: [p] := by
    rw [hpre, List.append_assoc, List.singleton_append,
      splitComma_append_comma _ _ (by decide), splitComma_no_comma p hp]
  simp only [FrameInv, extractedFrame, hsplit]
  rfl

theorem batchPure_mem (client : Nat → ApiOutcome) (frames : List Frame) :
    ∀ i g, g ∈ batchPure client frames i →
      (∃ d m, g = createFrame d m) ∨ g ∈ frames := by
  induction frames with
  | nil => intro i g h; simp [batchPure] at h
  | cons f rest ih =>
    intro i g h
    rw [batchPure, List.mem_cons] at h
    rcases h with h | h
    · cases hc : client i with
      | ok d m =>
        rw [hc] at h
        exact Or.inl ⟨d, m, h⟩
      | noImage =>
        rw [hc] at h
        exact Or.inr (h ▸ List.mem_cons_self f rest)
      | exn b =>
        rw [hc] at h
        exact Or.inr (h ▸ List.mem_cons_self f rest)
    · rcases ih (i + 1) g h with h' | h'
      · exact Or.inl h'
      · exact Or.inr (List.mem_cons_of_mem f h')

theorem styleFramesAux_ok_fields (client : Nat → ApiOutcome) (frames : List Frame) :
    ∀ i out, (styleFramesAux client frames i).1 = .ok out →
      ∀ s ∈ out, s.data = none ∧ s.mimeType = none := by
  induction frames with
  | nil =>
    intro i out h s hs
    simp only [styleFramesAux, Except.ok.injEq] at h
    subst h
    simp at hs
  | cons f rest ih =>
    intro i out h s hs
    cases hc : client i with
    | ok d m =>
      simp only [styleFramesAux, hc] at h
      cases hr : (styleFramesAux client rest (i + 1)).1 with
      | error e => rw [hr] at h; simp [Except.map] at h
      | ok l =>
        rw [hr] at h
        simp only [Except.map, Except.ok.injEq] at h
        subst h
        rcases List.mem_cons.1 hs with hs | hs
        · subst hs; exact ⟨rfl, rfl⟩
        · exact ih (i + 1) l hr s hs
    | noImage =>
      simp only [styleFramesAux, hc] at h
      cases hr : (styleFramesAux client rest (i + 1)).1 with
      | error e => rw [hr] at h; simp [Except.map] at h
      | ok l =>
        rw [hr] at h
        simp only [Except.map, Except.ok.injEq] at h
        subst h
        rcases List.mem_cons.1 hs with hs | hs
        · subst hs; exact ⟨rfl, rfl⟩
        · exact ih (i + 1) l hr s hs
    | exn b =>
      cases b with
      | true => simp [styleFramesAux, hc] at h
      | false =>
        simp only [styleFramesAux, hc] at h
        cases hr : (styleFramesAux client rest (i + 1)).1 with
        | error e => rw [hr] at h; simp [Except.map] at h
        | ok l =>
          rw [hr] at h
          simp only [Except.map, Except.ok.injEq] at h
          subst h
          rcases List.mem_cons.1 hs with hs | hs
          · subst hs; exact ⟨rfl, rfl⟩
          · exact ih (i + 1) l hr s hs

/-- Counterexample to claim C9: a frame produced by the pipeline whose three
fields are not the claimed consistent triple — the standalone app's
`styleFrames`, even on a successful stylization, pushes an object carrying
only `src` (its `data` and `mimeType` are absent), so the invariant
`src = data: + mimeType + ;base64, + data` cannot hold for it. -/
theorem frameUriInvariantCounterexample :
    (styleFrames (fun _ => .ok "QQ==".toList "image/png".toList)
      [⟨['d'], ['m'], ['s']⟩]).1
      = .ok [⟨none, none, "data:image/png;base64,QQ==".toList⟩] ∧
    ¬ StyledInv ⟨none, none, "data:image/png;base64,QQ==".toList⟩ := by
  constructor
  · decide
  · rintro ⟨d, m, hd, -, -⟩
    exact Option.noConfusion hd

/-- Claim C9 as amended: every frame built with all three fields satisfies
the invariant — `createFrame`, the frames captured from the video canvas,
and everything the effects-layer batch styler emits (given consistent
inputs) — but the stylized records of the standalone app's `styleFrames`
carry only `src` (their `data` and `mimeType` fields are absent), so the
three-field consistency invariant does not extend to them. -/
theorem frameUriInvariant :
    (∀ d m, FrameInv (createFrame d m)) ∧
    (∀ p : Str, ',' ∉ p → FrameInv (extractedFrame p)) ∧
    (∀ client frames, (∀ f ∈ frames, FrameInv f) →
      ∀ g ∈ styleFramesBatch client frames, FrameInv g) ∧
    (∀ client frames out, (styleFrames client frames).1 = .ok out →
      ∀ s ∈ out, s.data = none ∧ s.mimeType = none ∧ ¬ StyledInv s) := by
  refine ⟨fun d m => createFrame_inv d m, fun p hp => extractedFrame_inv p hp,
    ?_, ?_⟩
  · intro client frames hinv g hg
    rw [styleFramesBatch, styleFramesBatchAux_eq client frames 0] at hg
    rcases batchPure_mem client frames 0 g hg with ⟨d, m, rfl⟩ | h
    · exact createFrame_inv d m
    · exact hinv g h
  · intro client frames out h s hs
    have hf := styleFramesAux_ok_fields client frames 0 out h s hs
    refine ⟨hf.1, hf.2, ?_⟩
    rintro ⟨d, m, hd, -, -⟩
    rw [hf.1] at hd
    exact Option.noConfusion hd

/-- Witness for the amended C9: the invariant at a concrete `createFrame`
call and the absent fields of a concrete `styleFrames` output. -/
theorem frameUriInvariantWitness :
    FrameInv (createFrame "QQ==".toList "image/png".toList) ∧
    FrameInv (extractedFrame "Zm9v".toList) :=
  ⟨frameUriInvariant.1 "QQ==".toList "image/png".toList,
   frameUriInvariant.2.1 "Zm9v".toList (by decide)⟩

-- ============================================================
-- Claim C10: API key validation
-- ============================================================

/-- Claim C10: `isValidApiKey` accepts exactly the string values longer
than 10 characters that start with `AIza`, and the hybrid app's
`initializeAI` refuses to construct the styling client for any key failing
the check (and constructs it for any key passing it). -/
theorem apiKeyValidation :
    (∀ v, isValidApiKey v = true ↔
      ∃ s, v = .str s ∧ 10 < s.length ∧ "AIza".toList <+: s) ∧
    (∀ key, isValidApiKey (.str key) = false →
      initializeAI key = .error "Invalid API Key format") ∧
    (∀ key, isValidApiKey (.str key) = true → initializeAI key = .ok ⟨key⟩) := by
  refine ⟨?_, ?_, ?_⟩
  · intro v
    cases v with
    | str s =>
      simp [isValidApiKey, List.isPrefixOf_iff_prefix]
    | other => simp [isValidApiKey]
  · intro key h
    simp [initializeAI, h]
  · intro key h
    simp [initializeAI, h]

/-- Witness for C10: the short key `hello` is refused and a well-formed
`AIza...` key of length 12 is accepted. -/
theorem apiKeyValidationWitness :
    initializeAI "hello".toList = .error "Invalid API Key format" ∧
    initializeAI "AIzaSyABCDEF".toList = .ok ⟨"AIzaSyABCDEF".toList⟩ :=
  ⟨apiKeyValidation.2.1 "hello".toList (by decide),
   apiKeyValidation.2.2 "AIzaSyABCDEF".toList (by decide)⟩

end Paytk
